import Mathlib

/-!
# Verification of the halogin messaging core

Shallow embedding of the repository's messaging core:

* the contract-negotiation trigger `check_contract_offer_update` /
  `check_contract_update` from the SQL schema, embedded as it executes:
  the PL/pgSQL body's single statement is a bare `SELECT` with no `INTO`
  (and its subquery reads `old.offer_id`, unassigned in a BEFORE INSERT
  row trigger), so every execution raises before the `IF` and every
  guarded INSERT is aborted,
* the chat store (rooms, messages with their global BIGSERIAL id
  allocator, per-(room, user) last-seen watermarks),
* the client RPC dispatcher `WsRpc` from `frontend/src/lib/ws.ts`
  (nonce correlation, callback table, pending-frame queue).

Backend operations that exist in the repository only as schema and design
notes (`createRoom`, `sendMessage`, `updateLastSeen`, the unread count)
are modelled from the spec, with their id allocation and persistence
behaviour taken from the schema.
-/

namespace Halogin

/-- The `ContractOfferStatus` enum of the schema (identical to the second
schema's `ContractStatus`): the five recordable transition kinds. The
initial state "proposed by the company" is implicit — it is not a
recordable transition. -/
inductive ContractOfferStatus where
  | AcceptedByCreator
  | WithdrawnByCompany
  | CancelledByCreator
  | FinishedByCreator
  | ApprovedByCompany
deriving DecidableEq, Repr

open ContractOfferStatus

/-- The runtime errors the trigger body can raise.
`QueryHasNoDestination` is PostgreSQL's error for a bare `SELECT` inside
PL/pgSQL that has no `INTO` destination (the body's subquery moreover
reads `old.offer_id`, and `OLD` is unassigned in a BEFORE INSERT row
trigger — whichever defect fires first, the statement aborts).
`CannotDoThisStateTransition` is the body's own
`RAISE EXCEPTION 'Cannot do this state transition'` — the failure the
design's §7 surfaces as `IllegalContractTransition`. -/
inductive PgError where
  | QueryHasNoDestination
  | CannotDoThisStateTransition
deriving DecidableEq, Repr

/-- Execution of the trigger function `check_contract_offer_update`, as
PostgreSQL runs it.  The body declares `correct_transition BOOLEAN`
(initially NULL) and then executes
`SELECT CASE ... END AS correct_transition;` — `AS` aliases a result
column, there is no `INTO` — so PL/pgSQL raises
`query has no destination for result data` when the statement runs (its
subquery also reads `old.offer_id`, unassigned in a BEFORE INSERT row
trigger), aborting before the `IF`.  Even if that error were discarded,
`correct_transition` would still be NULL and `IF correct_transition` would
take the ELSE branch and hit the RAISE.  So every execution errors; the
decision CASE's value is never stored, tested, or returned, and the `ok`
outcome (the trigger returning `new`) is unreachable. -/
def check_contract_offer_update (_last : Option ContractOfferStatus)
    (_next : ContractOfferStatus) : Except PgError Unit :=
  Except.error PgError.QueryHasNoDestination

/-- Execution of the second schema's trigger `check_contract_update` on
`ChatContractUpdate`: its body is textually identical to
`check_contract_offer_update`, with the same missing `INTO` and the same
`old`-in-INSERT-trigger defect, so it too errors on every execution. -/
def check_contract_update (_last : Option ContractOfferStatus)
    (_next : ContractOfferStatus) : Except PgError Unit :=
  Except.error PgError.QueryHasNoDestination

/-- Error kinds of the core, as named in the design (§7): an out-of-range
or non-monotonic `update_last_seen` surfaces as `InvalidSeenId`.  (A
rejected contract transition is meant to surface as
`IllegalContractTransition`; the trigger as executed never reaches its
RAISE — see `check_contract_offer_update` — so nothing in the embedding
produces that value.) -/
inductive ChatError where
  | IllegalContractTransition
  | InvalidSeenId
deriving DecidableEq, Repr

/-- One `INSERT` into `ChatContractOfferUpdate` for a fixed offer, with
the `BEFORE INSERT` trigger in effect.  `history` is the offer's recorded
transitions in insertion order.  The trigger function runs before the row
is inserted; if it returns (`ok`) the row is appended, and if it raises
the INSERT is aborted, leaving the history unchanged together with the
error.  Since `check_contract_offer_update` errors on every execution,
the abort branch is the only one ever taken: no row is ever persisted. -/
def insertContractUpdate (history : List ContractOfferStatus)
    (next : ContractOfferStatus) :
    List ContractOfferStatus × Option PgError :=
  match check_contract_offer_update history.getLast? next with
  | Except.ok _ => (history ++ [next], none)
  | Except.error e => (history, some e)

/-- Replay a sequence of attempted transition inserts for one offer,
starting from the empty history (a freshly proposed offer): each attempt
goes through the trigger; rejected attempts leave the history unchanged. -/
def replayUpdates (attempts : List ContractOfferStatus) :
    List ContractOfferStatus :=
  attempts.foldl (fun h k => (insertContractUpdate h k).1) []

/-- The successor constraints of the §4.3 table for recorded states, as the
claim spells them out: after `AcceptedByCreator` only `CancelledByCreator`
or `FinishedByCreator`; after `FinishedByCreator` only
`ApprovedByCompany`; after `WithdrawnByCompany`, `CancelledByCreator` or
`ApprovedByCompany` nothing at all. -/
def specSuccessor (a b : ContractOfferStatus) : Prop :=
  (a = AcceptedByCreator → b = CancelledByCreator ∨ b = FinishedByCreator) ∧
  (a = FinishedByCreator → b = ApprovedByCompany) ∧
  (a = WithdrawnByCompany → False) ∧
  (a = CancelledByCreator → False) ∧
  (a = ApprovedByCompany → False)

instance (a b : ContractOfferStatus) : Decidable (specSuccessor a b) := by
  unfold specSuccessor; infer_instance

/-! ## Chat store: rooms, messages, last-seen watermarks

The schema defines `ChatRoom` (a UUID id plus the (company, user)
participant pair, with no uniqueness constraint on the pair),
`ChatMessage` (id `BIGSERIAL PRIMARY KEY` — a single global sequence
shared by every room — room reference, author, content, `created_at
TIMESTAMP DEFAULT CURRENT_TIMESTAMP`) and `ChatLastSeen` (primary key
(room_id, user_id), a `last_message_seen_id` referencing `ChatMessage`).
UUIDs and user ids are modelled as naturals, timestamps as naturals. -/

/-- A row of the `ChatMessage` table. -/
structure ChatMessage where
  id : Nat
  room_id : Nat
  from_user_id : Nat
  content : String
  created_at : Nat
deriving DecidableEq, Repr

/-- A row of the `ChatLastSeen` table: per (room, user), the highest
message id the user has acknowledged. -/
structure ChatLastSeen where
  room_id : Nat
  user_id : Nat
  last_message_seen_id : Nat
deriving DecidableEq, Repr

/-- The persistent chat state: the `BIGSERIAL` sequence backing
`ChatMessage.id` (`nextMessageId` is the id the next inserted row
receives; `BIGSERIAL` starts at 1), the `ChatMessage` rows in insertion
order, and the `ChatLastSeen` rows. -/
structure ChatStore where
  nextMessageId : Nat
  messages : List ChatMessage
  lastSeen : List ChatLastSeen
deriving DecidableEq, Repr

/-- The freshly migrated database: empty tables, sequence at 1. -/
def ChatStore.empty : ChatStore := ⟨1, [], []⟩

/-- The messages of one room, in insertion order. -/
def roomMessages (s : ChatStore) (room : Nat) : List ChatMessage :=
  s.messages.filter (fun m => m.room_id == room)

/-- The message ids of one room, in insertion order. -/
def roomIds (s : ChatStore) (room : Nat) : List Nat :=
  (roomMessages s room).map (fun m => m.id)

/-- The highest message id currently in a room (0 when the room has no
messages). -/
def maxMsgId (s : ChatStore) (room : Nat) : Nat :=
  (roomIds s room).foldr max 0

/-- Modelled from the spec: the Room Manager's `sendMessage` (its backend
implementation is not in the repository; only the schema and the design
notes are).  Persisting the message inserts a `ChatMessage` row, whose id
the schema allocates from the table's `BIGSERIAL` sequence — one global
sequence shared by all rooms — and whose `created_at` is the current
time; the result is the new store and the assigned id. -/
def sendMessage (s : ChatStore) (room user : Nat) (content : String)
    (now : Nat) : ChatStore × Nat :=
  let id := s.nextMessageId
  ({ s with
      nextMessageId := id + 1,
      messages := s.messages ++ [⟨id, room, user, content, now⟩] }, id)

/-- The `ChatLastSeen` row for (room, user), if any. -/
def lookupSeen (rows : List ChatLastSeen) (room user : Nat) : Option Nat :=
  (rows.find? (fun r => r.room_id == room && r.user_id == user)).map
    (fun r => r.last_message_seen_id)

/-- Upsert of the `ChatLastSeen` row for (room, user) — the table's
primary key is (room_id, user_id), so the pair holds at most one row. -/
def setLastSeen (rows : List ChatLastSeen) (room user v : Nat) :
    List ChatLastSeen :=
  ⟨room, user, v⟩ :: rows.filter
    (fun r => !(r.room_id == room && r.user_id == user))

/-- The user's acknowledged watermark in a room, if any. -/
def getLastSeen (s : ChatStore) (room user : Nat) : Option Nat :=
  lookupSeen s.lastSeen room user

/-- Modelled from the spec: the Room Manager's `updateLastSeen` (its
backend implementation is not in the repository).  It rejects with
`InvalidSeenId` if `seen_till` exceeds the highest message id currently in
the room, or if `seen_till` is less than the user's existing value;
otherwise it persists the watermark. -/
def updateLastSeen (s : ChatStore) (room user seen_till : Nat) :
    Except ChatError ChatStore :=
  if maxMsgId s room < seen_till then
    Except.error ChatError.InvalidSeenId
  else
    match getLastSeen s room user with
    | some cur =>
      if seen_till < cur then
        Except.error ChatError.InvalidSeenId
      else
        Except.ok { s with lastSeen := setLastSeen s.lastSeen room user seen_till }
    | none =>
      Except.ok { s with lastSeen := setLastSeen s.lastSeen room user seen_till }

/-- Modelled from the spec: the unread count reported by
`listRooms`/`queryRoom` — the room's maximum message id minus the user's
`last_message_seen_id` (0 when the user has no row), floored at 0 (Nat
subtraction). -/
def unreadCount (s : ChatStore) (room user : Nat) : Nat :=
  maxMsgId s room - (getLastSeen s room user).getD 0

/-- The number of messages of a room with id greater than `n`. -/
def messagesAfter (s : ChatStore) (room n : Nat) : Nat :=
  ((roomIds s room).filter (fun i => n < i)).length

/-- The store-mutating chat operations a client can drive: sending a
message to a room and acknowledging messages of a room. -/
inductive ChatOp where
  | send (room user : Nat) (content : String) (now : Nat)
  | seen (room user seen_till : Nat)
deriving DecidableEq, Repr

/-- Apply one operation: a rejected `updateLastSeen` leaves the store
unchanged (the error is reported to the caller, nothing is persisted). -/
def applyOp (s : ChatStore) (op : ChatOp) : ChatStore :=
  match op with
  | ChatOp.send room user content now => (sendMessage s room user content now).1
  | ChatOp.seen room user v =>
    match updateLastSeen s room user v with
    | Except.ok s2 => s2
    | Except.error _ => s

/-- Replay a whole operation sequence from the empty store. -/
def runOps (ops : List ChatOp) : ChatStore :=
  ops.foldl applyOp ChatStore.empty

/-- The timestamps of the send operations of a trace, in trace order. -/
def sendTimes (ops : List ChatOp) : List Nat :=
  ops.filterMap (fun op =>
    match op with
    | ChatOp.send _ _ _ now => some now
    | ChatOp.seen _ _ _ => none)

/-- Well-formedness of a store: the sequence dominates every inserted id,
ids are strictly increasing in insertion order, and every last-seen row is
bounded by its room's highest message id. -/
def WFStore (s : ChatStore) : Prop :=
  1 ≤ s.nextMessageId ∧
  (∀ m ∈ s.messages, m.id < s.nextMessageId) ∧
  (s.messages.map (fun m => m.id)).Pairwise (· < ·) ∧
  (∀ r ∈ s.lastSeen, r.last_message_seen_id ≤ maxMsgId s r.room_id)

/-! ## Room creation -/

/-- A row of the `ChatRoom` table: a room id (UUID in the schema, modelled
as a natural) and the (company, user) participant pair.  The schema places
no uniqueness constraint on the pair. -/
structure ChatRoom where
  id : Nat
  company_id : Nat
  user_id : Nat
deriving DecidableEq, Repr

/-- Modelled from the spec: the Room Manager's `createRoom` for the
`UserToCompany` direction (its backend implementation is not in the
repository; only the `ChatRoom` schema and the design notes are).  It
looks up the room for the participant pair and persists a new row only
when none exists, returning the room id either way.  Room ids (UUIDs in
the schema) are modelled as the number of previously created rooms. -/
def createRoom (rooms : List ChatRoom) (user company : Nat) :
    List ChatRoom × Nat :=
  match rooms.find? (fun r => r.company_id == company && r.user_id == user) with
  | some r => (rooms, r.id)
  | none => (rooms ++ [⟨rooms.length, company, user⟩], rooms.length)

/-- Replay a sequence of `UserToCompany` createRoom calls, each given as a
(user, company) pair, from an empty `ChatRoom` table. -/
def runCreates (calls : List (Nat × Nat)) : List ChatRoom :=
  calls.foldl (fun rs c => (createRoom rs c.1 c.2).1) []

/-- The persisted rooms of one participant pair. -/
def roomsForPair (rooms : List ChatRoom) (user company : Nat) :
    List ChatRoom :=
  rooms.filter (fun r => r.company_id == company && r.user_id == user)

/-! ## The client RPC dispatcher (`frontend/src/lib/ws.ts`)

`WsRpc` keeps a nonce counter, a nullable `WebSocket`, an event-handler
map, a nonce-indexed callback map, and a queue `pending` of closures that
send an encoded frame.  Handlers and callbacks are opaque functions in the
source; they are modelled by opaque numeric labels, and their invocations
are recorded in logs so that properties about "the callback is invoked"
can be stated.  `JSON.stringify({ method, data, nonce })` is modelled as
the `Frame` triple itself. -/

/-- The two readyState values `ws.ts` distinguishes: a socket is either
`OPEN` or it is not (`this.ws.readyState === this.ws.OPEN`). -/
inductive WsReady where
  | connecting
  | opened
deriving DecidableEq, Repr

/-- The `ws` field: `null` or a socket in some ready state. -/
inductive WsHandle where
  | null
  | conn (ready : WsReady)
deriving DecidableEq, Repr

/-- An encoded outbound frame, `JSON.stringify({ method, data, nonce })`. -/
structure Frame where
  method : String
  data : String
  nonce : Nat
deriving DecidableEq, Repr

/-- An inbound frame after `JSON.parse`, shaped as `onmessage` inspects
it: an event message (has `event`), or a call response carrying a `nonce`
with either `data` (success) or `error`. -/
inductive InboundMsg where
  | eventMsg (event : String) (data : String)
  | respData (method : String) (nonce : Nat) (data : String)
  | respError (method : String) (nonce : Nat) (error : String)
deriving DecidableEq, Repr

/-- The `WsRpc` instance state, plus the observation logs `sent` (frames
written to a socket by `ws.send`), `invoked` ((nonce, callback) pairs for
response-callback invocations) and `evtInvoked` (event-handler
invocations). -/
structure WsRpcState where
  nonce : Nat
  ws : WsHandle
  evtHandlers : List (String × Nat)
  callbacks : List (Nat × Nat)
  pending : List Frame
  sent : List Frame
  invoked : List (Nat × Nat)
  evtInvoked : List (String × Nat)
deriving DecidableEq, Repr

/-- The constructor: nonce 0, no socket, empty maps and queue. -/
def WsRpcState.init : WsRpcState :=
  ⟨0, WsHandle.null, [], [], [], [], [], []⟩

/-- `Map.set` on an association list keyed by the first component:
overwrite any existing entry for the key, keep the rest. -/
def setAssoc (m : List (Nat × Nat)) (k v : Nat) : List (Nat × Nat) :=
  (k, v) :: m.filter (fun p => !(p.1 == k))

/-- `Map.get` on an association list keyed by the first component. -/
def getAssoc (m : List (Nat × Nat)) (k : Nat) : Option Nat :=
  (m.find? (fun p => p.1 == k)).map (fun p => p.2)

/-- The `onmessage` handler of `WsRpc.connect`: an event message invokes
the registered event handler if any; a message carrying a nonce looks up
the callback for that nonce, invokes it when the message carries `data`
(on `error` it only logs to the console), and in either case deletes the
nonce from the callback map (deleting an absent key is a no-op). -/
def onmessage (c : WsRpcState) (m : InboundMsg) : WsRpcState :=
  match m with
  | InboundMsg.eventMsg e _ =>
    match c.evtHandlers.find? (fun h => h.1 == e) with
    | some h => { c with evtInvoked := c.evtInvoked ++ [(e, h.2)] }
    | none => c
  | InboundMsg.respData _ n _ =>
    let c2 :=
      match getAssoc c.callbacks n with
      | some cb => { c with invoked := c.invoked ++ [(n, cb)] }
      | none => c
    { c2 with callbacks := c2.callbacks.filter (fun p => !(p.1 == n)) }
  | InboundMsg.respError _ n _ =>
    { c with callbacks := c.callbacks.filter (fun p => !(p.1 == n)) }

/-- `WsRpc.call`: take the current nonce and increment the counter,
register the callback under that nonce, encode the frame, and either send
it immediately (socket present and `OPEN`) or push it onto `pending`. -/
def wsCall (c : WsRpcState) (method data : String) (cb : Nat) : WsRpcState :=
  let n := c.nonce
  let f : Frame := ⟨method, data, n⟩
  let c1 := { c with nonce := n + 1, callbacks := setAssoc c.callbacks n cb }
  match c1.ws with
  | WsHandle.conn WsReady.opened => { c1 with sent := c1.sent ++ [f] }
  | _ => { c1 with pending := c1.pending ++ [f] }

/-- The externally visible happenings at one `WsRpc` instance: calls and
handler registrations by the application, and the socket lifecycle
(`connect` creates a socket, `openEvent` is its `onopen` firing,
`closeEvent` its `onclose`, `recv` its `onmessage`). -/
inductive WsEvent where
  | connect
  | openEvent
  | closeEvent
  | callEvent (method data : String) (cb : Nat)
  | addHandler (event : String) (handler : Nat)
  | recv (m : InboundMsg)
deriving DecidableEq, Repr

/-- One step of the client.  `connect` replaces `ws` by a fresh
connecting socket.  `onopen` marks the socket `OPEN` and runs every
closure in `pending` in order — each sends its frame — without clearing
`pending`.  `onclose` sets `ws` to null (the delayed reconnect surfaces as
a later `connect`).  `addEventHandler` overwrites the handler for the
event name. -/
def wsStep (c : WsRpcState) (e : WsEvent) : WsRpcState :=
  match e with
  | WsEvent.connect => { c with ws := WsHandle.conn WsReady.connecting }
  | WsEvent.openEvent =>
    match c.ws with
    | WsHandle.conn WsReady.connecting =>
      { c with ws := WsHandle.conn WsReady.opened, sent := c.sent ++ c.pending }
    | _ => c
  | WsEvent.closeEvent =>
    match c.ws with
    | WsHandle.null => c
    | WsHandle.conn _ => { c with ws := WsHandle.null }
  | WsEvent.callEvent m d cb => wsCall c m d cb
  | WsEvent.addHandler e h =>
    { c with evtHandlers := (e, h) :: c.evtHandlers.filter (fun p => !(p.1 == e)) }
  | WsEvent.recv m => onmessage c m

/-- Run a client from an arbitrary state. -/
def runWsFrom (c : WsRpcState) (evs : List WsEvent) : WsRpcState :=
  evs.foldl wsStep c

/-- Run the singleton `wsRpc` client from its constructed state. -/
def runWs (evs : List WsEvent) : WsRpcState :=
  runWsFrom WsRpcState.init evs

/-- Invariant of the dispatcher: registered nonces and logged invocations
are below the counter, a nonce is invoked at most once, and a nonce still
registered was never invoked. -/
def WsInv (c : WsRpcState) : Prop :=
  (∀ p ∈ c.callbacks, p.1 < c.nonce) ∧
  (∀ q ∈ c.invoked, q.1 < c.nonce) ∧
  (∀ n, (c.invoked.filter (fun q => q.1 == n)).length ≤ 1) ∧
  (∀ n, (∃ cb, (n, cb) ∈ c.callbacks) →
    (c.invoked.filter (fun q => q.1 == n)).length = 0)

/-! ## Concrete scenario material -/

/-- The gap-freeness the spec asserts for one room's message ids: each id
is the successor of the room's previous highest id. -/
def GapFree (l : List Nat) : Prop :=
  l.Chain' (fun a b => b = a + 1)

/-- A method name for concrete RPC scenarios. -/
def methodA : String := "chat.create_room"

/-- A payload for concrete RPC scenarios. -/
def payloadA : String := "x"

/-- A message body for concrete chat scenarios. -/
def bodyA : String := "hello"

/-- Two rooms interleaved at the global id sequence: room 0 receives ids 1
and 3, room 1 receives id 2. -/
def gapTrace : List ChatOp :=
  [ChatOp.send 0 10 bodyA 0, ChatOp.send 1 11 bodyA 0, ChatOp.send 0 10 bodyA 1]

/-- One message in room 0, acknowledged by user 10. -/
def seenTrace : List ChatOp :=
  [ChatOp.send 0 10 bodyA 0, ChatOp.seen 0 10 1]

/-- A call made while disconnected, a connection that opens, drops, and
reopens. -/
def dupTrace : List WsEvent :=
  [WsEvent.callEvent methodA payloadA 7, WsEvent.connect, WsEvent.openEvent,
   WsEvent.closeEvent, WsEvent.connect, WsEvent.openEvent]

/-! ## Lemma layer: the contract trigger -/

lemma insertContractUpdate_aborts (h : List ContractOfferStatus)
    (k : ContractOfferStatus) :
    insertContractUpdate h k = (h, some PgError.QueryHasNoDestination) := rfl

lemma replayUpdates_nil (attempts : List ContractOfferStatus) :
    replayUpdates attempts = [] := by
  unfold replayUpdates
  induction attempts with
  | nil => rfl
  | cons a l ih =>
    rw [List.foldl_cons]
    exact ih

/-! ## Lemma layer: the chat store -/

lemma le_foldr_max (l : List Nat) (i : Nat) (h : i ∈ l) : i ≤ l.foldr max 0 := by
  induction l with
  | nil => cases h
  | cons a l ih =>
    rcases List.mem_cons.mp h with rfl | hm
    · exact le_max_left _ _
    · exact le_trans (ih hm) (le_max_right _ _)

lemma foldr_max_append (l : List Nat) (x : Nat) :
    (l ++ [x]).foldr max 0 = max (l.foldr max 0) x := by
  induction l with
  | nil => simp [Nat.max_comm]
  | cons a l ih => simp [ih, Nat.max_assoc]

lemma roomIds_send (s : ChatStore) (r u : Nat) (c : String) (t room : Nat) :
    roomIds ((sendMessage s r u c t).1) room =
      roomIds s room ++ (if r == room then [s.nextMessageId] else []) := by
  unfold roomIds roomMessages sendMessage
  by_cases h : (r == room) <;>
    simp [List.filter_append, h]

lemma maxMsgId_send_le (s : ChatStore) (r u : Nat) (c : String) (t room : Nat) :
    maxMsgId s room ≤ maxMsgId ((sendMessage s r u c t).1) room := by
  unfold maxMsgId
  rw [roomIds_send]
  by_cases h : (r == room)
  · rw [if_pos h, foldr_max_append]
    exact le_max_left _ _
  · rw [if_neg h]
    simp

lemma getLastSeen_send (s : ChatStore) (r u : Nat) (c : String) (t room user : Nat) :
    getLastSeen ((sendMessage s r u c t).1) room user = getLastSeen s room user := rfl

lemma mem_setLastSeen (rows : List ChatLastSeen) (room user v : Nat)
    (r : ChatLastSeen) (h : r ∈ setLastSeen rows room user v) :
    r = ⟨room, user, v⟩ ∨ r ∈ rows := by
  rcases List.mem_cons.mp h with h | h
  · exact Or.inl h
  · exact Or.inr (List.mem_filter.mp h).1

lemma updateLastSeen_ok (s : ChatStore) (room user v : Nat) (s2 : ChatStore)
    (h : updateLastSeen s room user v = Except.ok s2) :
    v ≤ maxMsgId s room ∧
    (∀ cur, getLastSeen s room user = some cur → cur ≤ v) ∧
    s2.messages = s.messages ∧ s2.nextMessageId = s.nextMessageId ∧
    s2.lastSeen = setLastSeen s.lastSeen room user v := by
  unfold updateLastSeen at h
  by_cases h1 : maxMsgId s room < v
  · rw [if_pos h1] at h
    simp at h
  · rw [if_neg h1] at h
    cases hg : getLastSeen s room user with
    | none =>
      rw [hg] at h
      simp only [Except.ok.injEq] at h
      subst h
      exact ⟨Nat.le_of_not_lt h1, fun cur hc => by simp [hg] at hc, rfl, rfl, rfl⟩
    | some cur =>
      rw [hg] at h
      dsimp only at h
      by_cases h2 : v < cur
      · rw [if_pos h2] at h
        simp at h
      · rw [if_neg h2] at h
        simp only [Except.ok.injEq] at h
        subst h
        refine ⟨Nat.le_of_not_lt h1, ?_, rfl, rfl, rfl⟩
        intro c hc
        cases hc
        exact Nat.le_of_not_lt h2

lemma find?_filter_true {α : Type} (l : List α) (p q : α → Bool)
    (himp : ∀ a, p a = true → q a = true) :
    (l.filter q).find? p = l.find? p := by
  induction l with
  | nil => rfl
  | cons a l ih =>
    by_cases hq : q a = true
    · rw [List.filter_cons_of_pos hq]
      by_cases hp : p a = true
      · rw [List.find?_cons_of_pos _ hp, List.find?_cons_of_pos _ hp]
      · rw [List.find?_cons_of_neg _ hp, List.find?_cons_of_neg _ hp, ih]
    · have hp : ¬ p a = true := fun hpa => hq (himp a hpa)
      rw [List.filter_cons_of_neg hq, List.find?_cons_of_neg _ hp, ih]

lemma lookupSeen_set_eq (rows : List ChatLastSeen) (room user v : Nat) :
    lookupSeen (setLastSeen rows room user v) room user = some v := by
  unfold lookupSeen setLastSeen
  rw [List.find?_cons_of_pos]
  · rfl
  · simp

lemma lookupSeen_set_ne (rows : List ChatLastSeen) (room user v room' user' : Nat)
    (h : ¬(room' = room ∧ user' = user)) :
    lookupSeen (setLastSeen rows room user v) room' user' =
      lookupSeen rows room' user' := by
  unfold lookupSeen setLastSeen
  rw [List.find?_cons_of_neg, find?_filter_true]
  · intro r hr
    simp only [Bool.and_eq_true, beq_iff_eq] at hr
    simp only [Bool.not_eq_true', Bool.and_eq_false_iff]
    simp only [beq_eq_false_iff_ne, ne_eq]
    by_cases hroom : room' = room
    · exact Or.inr (fun hu => h ⟨hroom, by rw [← hr.2, hu]⟩)
    · exact Or.inl (fun hrm => hroom (by rw [← hr.1, hrm]))
  · simp only [Bool.and_eq_true, beq_iff_eq, not_and]
    intro h1 h2
    exact h ⟨h1.symm, h2.symm⟩

lemma maxMsgId_congr (s1 s2 : ChatStore) (h : s1.messages = s2.messages)
    (room : Nat) : maxMsgId s1 room = maxMsgId s2 room := by
  unfold maxMsgId roomIds roomMessages
  rw [h]

lemma applyOp_seen_store (s : ChatStore) (r u v : Nat) :
    (applyOp s (ChatOp.seen r u v)).messages = s.messages ∧
    (applyOp s (ChatOp.seen r u v)).nextMessageId = s.nextMessageId := by
  cases h : updateLastSeen s r u v with
  | ok s2 =>
    obtain ⟨_, _, hm, hn, _⟩ := updateLastSeen_ok s r u v s2 h
    have happ : applyOp s (ChatOp.seen r u v) = s2 := by
      simp [applyOp, h]
    rw [happ]
    exact ⟨hm, hn⟩
  | error e =>
    have happ : applyOp s (ChatOp.seen r u v) = s := by
      simp [applyOp, h]
    rw [happ]
    exact ⟨rfl, rfl⟩

lemma WF_applyOp (s : ChatStore) (op : ChatOp) (hs : WFStore s) :
    WFStore (applyOp s op) := by
  obtain ⟨h1, h2, h3, h4⟩ := hs
  cases op with
  | send room user content now =>
    have hmsg : (applyOp s (ChatOp.send room user content now)).messages =
        s.messages ++ [⟨s.nextMessageId, room, user, content, now⟩] := rfl
    have hnext : (applyOp s (ChatOp.send room user content now)).nextMessageId =
        s.nextMessageId + 1 := rfl
    have hls : (applyOp s (ChatOp.send room user content now)).lastSeen =
        s.lastSeen := rfl
    refine ⟨?_, ?_, ?_, ?_⟩
    · rw [hnext]; omega
    · intro m hm
      rw [hmsg] at hm
      rw [hnext]
      rcases List.mem_append.mp hm with hm | hm
      · exact Nat.lt_succ_of_lt (h2 m hm)
      · rcases List.mem_singleton.mp hm with rfl
        exact Nat.lt_succ_self _
    · rw [hmsg, List.map_append, List.pairwise_append]
      refine ⟨h3, List.pairwise_singleton _ _, ?_⟩
      intro x hx y hy
      simp only [List.map_cons, List.map_nil, List.mem_singleton] at hy
      subst hy
      rcases List.mem_map.mp hx with ⟨m, hm, rfl⟩
      exact h2 m hm
    · intro r hr
      rw [hls] at hr
      calc r.last_message_seen_id ≤ maxMsgId s r.room_id := h4 r hr
        _ ≤ maxMsgId (applyOp s (ChatOp.send room user content now)) r.room_id :=
          maxMsgId_send_le s room user content now r.room_id
  | seen room user v =>
    cases h : updateLastSeen s room user v with
    | error e =>
      have happ : applyOp s (ChatOp.seen room user v) = s := by
        simp [applyOp, h]
      rw [happ]
      exact ⟨h1, h2, h3, h4⟩
    | ok s2 =>
      obtain ⟨hle, hcur, hm, hn, hl⟩ := updateLastSeen_ok s room user v s2 h
      have happ : applyOp s (ChatOp.seen room user v) = s2 := by
        simp [applyOp, h]
      rw [happ]
      have hmax : ∀ room', maxMsgId s2 room' = maxMsgId s room' :=
        fun room' => maxMsgId_congr s2 s hm room'
      refine ⟨hn ▸ h1, ?_, ?_, ?_⟩
      · intro m hmem
        rw [hm] at hmem
        rw [hn]
        exact h2 m hmem
      · rw [hm]
        exact h3
      · intro r hr
        rw [hl] at hr
        rcases mem_setLastSeen s.lastSeen room user v r hr with rfl | hr
        · rw [hmax]
          exact hle
        · rw [hmax]
          exact h4 r hr

lemma foldl_WF (ops : List ChatOp) (s : ChatStore) (hs : WFStore s) :
    WFStore (ops.foldl applyOp s) := by
  induction ops generalizing s with
  | nil => exact hs
  | cons op ops ih => exact ih _ (WF_applyOp s op hs)

lemma WF_empty : WFStore ChatStore.empty := by
  refine ⟨le_refl 1, ?_, ?_, ?_⟩ <;> simp [ChatStore.empty]

lemma runOps_WF (ops : List ChatOp) : WFStore (runOps ops) :=
  foldl_WF ops _ WF_empty

lemma messages_times (ops : List ChatOp) :
    (runOps ops).messages.map (fun m => m.created_at) = sendTimes ops := by
  induction ops using List.reverseRecOn with
  | nil => rfl
  | append_singleton l op ih =>
    have hrun : runOps (l ++ [op]) = applyOp (runOps l) op := by
      unfold runOps
      rw [List.foldl_append]
      rfl
    rw [hrun]
    cases op with
    | send r u c t =>
      have hmsg : (applyOp (runOps l) (ChatOp.send r u c t)).messages =
          (runOps l).messages ++ [⟨(runOps l).nextMessageId, r, u, c, t⟩] := rfl
      rw [hmsg, List.map_append, ih]
      simp [sendTimes, List.filterMap_append]
    | seen r u v =>
      rw [(applyOp_seen_store (runOps l) r u v).1, ih]
      simp [sendTimes, List.filterMap_append]

lemma getLastSeen_mem (s : ChatStore) (room user v : Nat)
    (h : getLastSeen s room user = some v) :
    ∃ r ∈ s.lastSeen, r.room_id = room ∧ r.user_id = user ∧
      r.last_message_seen_id = v := by
  unfold getLastSeen lookupSeen at h
  cases hf : s.lastSeen.find? (fun r => r.room_id == room && r.user_id == user) with
  | none => rw [hf] at h; simp at h
  | some r =>
    rw [hf] at h
    simp only [Option.map_some', Option.some.injEq] at h
    have hmem := List.mem_of_find?_eq_some hf
    have hpred := List.find?_some hf
    simp only [Bool.and_eq_true, beq_iff_eq] at hpred
    exact ⟨r, hmem, hpred.1, hpred.2, h⟩

lemma filter_lt_length_le (l : List Nat) (hnd : l.Nodup) (M N : Nat)
    (hb : ∀ i ∈ l, i ≤ M) :
    (l.filter (fun i => N < i)).length ≤ M - N := by
  have hnd2 : (l.filter (fun i => decide (N < i))).Nodup := hnd.filter _
  have hsub : (l.filter (fun i => decide (N < i))).toFinset ⊆ Finset.Ioc N M := by
    intro i hi
    rw [List.mem_toFinset] at hi
    have hmem := List.mem_of_mem_filter hi
    have hlt := List.of_mem_filter hi
    rw [Finset.mem_Ioc]
    exact ⟨by simpa using hlt, hb i hmem⟩
  calc (l.filter (fun i => decide (N < i))).length
      = (l.filter (fun i => decide (N < i))).toFinset.card :=
        (List.toFinset_card_of_nodup hnd2).symm
    _ ≤ (Finset.Ioc N M).card := Finset.card_le_card hsub
    _ = M - N := Nat.card_Ioc N M

/-! ## Lemma layer: room creation -/

lemma createRoom_eq_some (rooms : List ChatRoom) (user company : Nat)
    (r : ChatRoom)
    (h : rooms.find? (fun r => r.company_id == company && r.user_id == user) = some r) :
    createRoom rooms user company = (rooms, r.id) := by
  simp [createRoom, h]

lemma createRoom_eq_none (rooms : List ChatRoom) (user company : Nat)
    (h : rooms.find? (fun r => r.company_id == company && r.user_id == user) = none) :
    createRoom rooms user company =
      (rooms ++ [⟨rooms.length, company, user⟩], rooms.length) := by
  simp [createRoom, h]

lemma createRoom_idem (rooms : List ChatRoom) (user company : Nat) :
    createRoom ((createRoom rooms user company).1) user company =
      createRoom rooms user company := by
  cases h : rooms.find? (fun r => r.company_id == company && r.user_id == user) with
  | some r =>
    rw [createRoom_eq_some rooms user company r h]
    rw [createRoom_eq_some rooms user company r h]
  | none =>
    rw [createRoom_eq_none rooms user company h]
    have hfind :
        (rooms ++ [(⟨rooms.length, company, user⟩ : ChatRoom)]).find?
          (fun r => r.company_id == company && r.user_id == user) =
        some ⟨rooms.length, company, user⟩ := by
      rw [List.find?_append, h]
      simp
    rw [createRoom_eq_some _ user company _ hfind]

lemma find?_none_filter_nil {α : Type} (l : List α) (p : α → Bool)
    (h : l.find? p = none) : l.filter p = [] := by
  rw [List.filter_eq_nil_iff]
  exact List.find?_eq_none.mp h

lemma roomsForPair_append (l1 l2 : List ChatRoom) (user company : Nat) :
    roomsForPair (l1 ++ l2) user company =
      roomsForPair l1 user company ++ roomsForPair l2 user company := by
  simp [roomsForPair, List.filter_append]

lemma createRoom_pair_inv (rooms : List ChatRoom) (u0 c0 : Nat)
    (hInv : ∀ u c, (roomsForPair rooms u c).length ≤ 1) :
    ∀ u c, (roomsForPair ((createRoom rooms u0 c0).1) u c).length ≤ 1 := by
  intro u c
  cases h : rooms.find? (fun r => r.company_id == c0 && r.user_id == u0) with
  | some r =>
    rw [createRoom_eq_some rooms u0 c0 r h]
    exact hInv u c
  | none =>
    rw [createRoom_eq_none rooms u0 c0 h]
    rw [roomsForPair_append]
    by_cases hpair : u = u0 ∧ c = c0
    · obtain ⟨rfl, rfl⟩ := hpair
      have hnil : roomsForPair rooms u c = [] :=
        find?_none_filter_nil rooms _ h
      rw [hnil]
      simp [roomsForPair]
    · have hnil : roomsForPair [(⟨rooms.length, c0, u0⟩ : ChatRoom)] u c = [] := by
        simp only [roomsForPair, List.filter_eq_nil_iff]
        intro r hr
        rcases List.mem_singleton.mp hr with rfl
        simp only [Bool.and_eq_true, beq_iff_eq, not_and]
        intro hc hu
        exact hpair ⟨hu.symm, hc.symm⟩
      rw [hnil, List.append_nil]
      exact hInv u c

lemma runCreates_pair (calls : List (Nat × Nat)) :
    ∀ u c, (roomsForPair (runCreates calls) u c).length ≤ 1 := by
  induction calls using List.reverseRecOn with
  | nil => intro u c; simp [runCreates, roomsForPair]
  | append_singleton l call ih =>
    have hrun : runCreates (l ++ [call]) =
        (createRoom (runCreates l) call.1 call.2).1 := by
      unfold runCreates
      rw [List.foldl_append]
      rfl
    rw [hrun]
    exact createRoom_pair_inv (runCreates l) call.1 call.2 ih

/-! ## Lemma layer: the RPC dispatcher -/

lemma getAssoc_none_find? (m : List (Nat × Nat)) (n : Nat)
    (h : getAssoc m n = none) : m.find? (fun p => p.1 == n) = none := by
  unfold getAssoc at h
  cases hf : m.find? (fun p => p.1 == n) with
  | none => rfl
  | some p => rw [hf] at h; simp at h

lemma filter_not_key_eq (m : List (Nat × Nat)) (n : Nat)
    (h : getAssoc m n = none) :
    m.filter (fun p => !(p.1 == n)) = m := by
  rw [List.filter_eq_self]
  intro p hp
  have hnp := List.find?_eq_none.mp (getAssoc_none_find? m n h) p hp
  simpa using hnp

lemma getAssoc_some_mem (m : List (Nat × Nat)) (n v : Nat)
    (h : getAssoc m n = some v) : (n, v) ∈ m := by
  unfold getAssoc at h
  cases hf : m.find? (fun p => p.1 == n) with
  | none => rw [hf] at h; simp at h
  | some p =>
    rw [hf] at h
    simp only [Option.map_some', Option.some.injEq] at h
    have hmem := List.mem_of_find?_eq_some hf
    have hpred := List.find?_some hf
    simp only [beq_iff_eq] at hpred
    have : p = (n, v) := by
      cases p
      simp only at hpred h
      simp [hpred, h]
    rw [← this]
    exact hmem

lemma getAssoc_filter_self (m : List (Nat × Nat)) (n : Nat) :
    getAssoc (m.filter (fun p => !(p.1 == n))) n = none := by
  unfold getAssoc
  rw [List.find?_eq_none.mpr]
  · rfl
  · intro p hp
    have := List.of_mem_filter hp
    simpa using this

lemma mem_setAssoc (m : List (Nat × Nat)) (k v : Nat) (p : Nat × Nat)
    (h : p ∈ setAssoc m k v) : p = (k, v) ∨ p ∈ m := by
  rcases List.mem_cons.mp h with h | h
  · exact Or.inl h
  · exact Or.inr (List.mem_filter.mp h).1

lemma invoked_filter_nil (inv : List (Nat × Nat)) (n : Nat)
    (h : ∀ q ∈ inv, q.1 ≠ n) :
    inv.filter (fun q => q.1 == n) = [] := by
  rw [List.filter_eq_nil_iff]
  intro q hq
  simpa using h q hq

lemma wsCall_fields (c : WsRpcState) (m d : String) (cb : Nat) :
    (wsCall c m d cb).nonce = c.nonce + 1 ∧
    (wsCall c m d cb).callbacks = setAssoc c.callbacks c.nonce cb ∧
    (wsCall c m d cb).invoked = c.invoked := by
  cases hws : c.ws with
  | null => simp [wsCall, hws]
  | conn r => cases r <;> simp [wsCall, hws]

lemma wsStep_admin_fields (c : WsRpcState) (e : WsEvent)
    (he : e = WsEvent.connect ∨ e = WsEvent.openEvent ∨ e = WsEvent.closeEvent ∨
      ∃ ev hd, e = WsEvent.addHandler ev hd) :
    (wsStep c e).nonce = c.nonce ∧ (wsStep c e).callbacks = c.callbacks ∧
    (wsStep c e).invoked = c.invoked := by
  rcases he with rfl | rfl | rfl | ⟨ev, hd, rfl⟩
  · exact ⟨rfl, rfl, rfl⟩
  · cases hws : c.ws with
    | null => simp [wsStep, hws]
    | conn r => cases r <;> simp [wsStep, hws]
  · cases hws : c.ws with
    | null => simp [wsStep, hws]
    | conn r => simp [wsStep, hws]
  · exact ⟨rfl, rfl, rfl⟩

lemma WsInv_step (c : WsRpcState) (e : WsEvent) (h : WsInv c) :
    WsInv (wsStep c e) := by
  obtain ⟨h1, h2, h3, h4⟩ := h
  cases e with
  | connect =>
    obtain ⟨hn, hc, hi⟩ := wsStep_admin_fields c WsEvent.connect (Or.inl rfl)
    exact ⟨fun p hp => hn ▸ h1 p (hc ▸ hp), fun q hq => hn ▸ h2 q (hi ▸ hq),
      fun n => hi ▸ h3 n, fun n hex => hi ▸ h4 n (by rw [← hc]; exact hex)⟩
  | openEvent =>
    obtain ⟨hn, hc, hi⟩ := wsStep_admin_fields c WsEvent.openEvent (Or.inr (Or.inl rfl))
    exact ⟨fun p hp => hn ▸ h1 p (hc ▸ hp), fun q hq => hn ▸ h2 q (hi ▸ hq),
      fun n => hi ▸ h3 n, fun n hex => hi ▸ h4 n (by rw [← hc]; exact hex)⟩
  | closeEvent =>
    obtain ⟨hn, hc, hi⟩ :=
      wsStep_admin_fields c WsEvent.closeEvent (Or.inr (Or.inr (Or.inl rfl)))
    exact ⟨fun p hp => hn ▸ h1 p (hc ▸ hp), fun q hq => hn ▸ h2 q (hi ▸ hq),
      fun n => hi ▸ h3 n, fun n hex => hi ▸ h4 n (by rw [← hc]; exact hex)⟩
  | addHandler ev hd =>
    obtain ⟨hn, hc, hi⟩ := wsStep_admin_fields c (WsEvent.addHandler ev hd)
      (Or.inr (Or.inr (Or.inr ⟨ev, hd, rfl⟩)))
    exact ⟨fun p hp => hn ▸ h1 p (hc ▸ hp), fun q hq => hn ▸ h2 q (hi ▸ hq),
      fun n => hi ▸ h3 n, fun n hex => hi ▸ h4 n (by rw [← hc]; exact hex)⟩
  | callEvent m d cb =>
    obtain ⟨hn, hc, hi⟩ := wsCall_fields c m d cb
    have hstep : wsStep c (WsEvent.callEvent m d cb) = wsCall c m d cb := rfl
    rw [hstep]
    refine ⟨?_, ?_, ?_, ?_⟩
    · intro p hp
      rw [hc] at hp
      rw [hn]
      rcases mem_setAssoc c.callbacks c.nonce cb p hp with rfl | hp
      · exact Nat.lt_succ_self _
      · exact Nat.lt_succ_of_lt (h1 p hp)
    · intro q hq
      rw [hi] at hq
      rw [hn]
      exact Nat.lt_succ_of_lt (h2 q hq)
    · intro n
      rw [hi]
      exact h3 n
    · intro n hex
      rw [hi]
      rcases hex with ⟨cb', hmem⟩
      rw [hc] at hmem
      rcases mem_setAssoc c.callbacks c.nonce cb (n, cb') hmem with heq | hmem'
      · have hnn : n = c.nonce := congrArg Prod.fst heq
        rw [hnn, invoked_filter_nil c.invoked c.nonce
          (fun q hq => Nat.ne_of_lt (h2 q hq))]
        rfl
      · exact h4 n ⟨cb', hmem'⟩
  | recv msg =>
    have hstep : wsStep c (WsEvent.recv msg) = onmessage c msg := rfl
    rw [hstep]
    cases msg with
    | eventMsg ev d =>
      cases hf : c.evtHandlers.find? (fun h => h.1 == ev) with
      | some hd =>
        have heq : onmessage c (InboundMsg.eventMsg ev d) =
            { c with evtInvoked := c.evtInvoked ++ [(ev, hd.2)] } := by
          simp [onmessage, hf]
        rw [heq]
        exact ⟨h1, h2, h3, h4⟩
      | none =>
        have heq : onmessage c (InboundMsg.eventMsg ev d) = c := by
          simp [onmessage, hf]
        rw [heq]
        exact ⟨h1, h2, h3, h4⟩
    | respData meth n d =>
      cases hga : getAssoc c.callbacks n with
      | none =>
        have heq : onmessage c (InboundMsg.respData meth n d) =
            { c with callbacks := c.callbacks.filter (fun p => !(p.1 == n)) } := by
          simp [onmessage, hga]
        rw [heq]
        refine ⟨?_, h2, h3, ?_⟩
        · intro p hp
          exact h1 p (List.mem_filter.mp hp).1
        · intro n' hex
          rcases hex with ⟨cb', hmem⟩
          exact h4 n' ⟨cb', (List.mem_filter.mp hmem).1⟩
      | some cb0 =>
        have heq : onmessage c (InboundMsg.respData meth n d) =
            { c with invoked := c.invoked ++ [(n, cb0)],
                     callbacks := c.callbacks.filter (fun p => !(p.1 == n)) } := by
          simp [onmessage, hga]
        rw [heq]
        have hn_lt : n < c.nonce := h1 (n, cb0) (getAssoc_some_mem c.callbacks n cb0 hga)
        have hzero : (c.invoked.filter (fun q => q.1 == n)).length = 0 :=
          h4 n ⟨cb0, getAssoc_some_mem c.callbacks n cb0 hga⟩
        refine ⟨?_, ?_, ?_, ?_⟩
        · intro p hp
          exact h1 p (List.mem_filter.mp hp).1
        · intro q hq
          rcases List.mem_append.mp hq with hq | hq
          · exact h2 q hq
          · rcases List.mem_singleton.mp hq with rfl
            exact hn_lt
        · intro n'
          rw [List.filter_append]
          by_cases hnn : n = n'
          · subst hnn
            rw [List.length_append, hzero]
            simp
          · have : ([(n, cb0)].filter (fun q => q.1 == n')).length = 0 := by
              simp [hnn]
            rw [List.length_append, this]
            simpa using h3 n'
        · intro n' hex
          rcases hex with ⟨cb', hmem⟩
          have hmem' := (List.mem_filter.mp hmem).1
          have hne : ¬(n' = n) := by
            have := (List.mem_filter.mp hmem).2
            simpa using this
          rw [List.filter_append, List.length_append]
          have hz1 : (c.invoked.filter (fun q => q.1 == n')).length = 0 :=
            h4 n' ⟨cb', hmem'⟩
          have hz2 : ([(n, cb0)].filter (fun q => q.1 == n')).length = 0 := by
            simp
            intro hc
            exact absurd hc.symm hne
          omega
    | respError meth n er =>
      have heq : onmessage c (InboundMsg.respError meth n er) =
          { c with callbacks := c.callbacks.filter (fun p => !(p.1 == n)) } := rfl
      rw [heq]
      refine ⟨?_, h2, h3, ?_⟩
      · intro p hp
        exact h1 p (List.mem_filter.mp hp).1
      · intro n' hex
        rcases hex with ⟨cb', hmem⟩
        exact h4 n' ⟨cb', (List.mem_filter.mp hmem).1⟩

lemma WsInv_init : WsInv WsRpcState.init := by
  refine ⟨?_, ?_, ?_, ?_⟩ <;> simp [WsRpcState.init]

lemma WsInv_runFrom (c : WsRpcState) (evs : List WsEvent) (h : WsInv c) :
    WsInv (runWsFrom c evs) := by
  induction evs generalizing c with
  | nil => exact h
  | cons e evs ih => exact ih _ (WsInv_step c e h)

lemma WsInv_runWs (evs : List WsEvent) : WsInv (runWs evs) :=
  WsInv_runFrom WsRpcState.init evs WsInv_init

lemma wsStep_pending_extend (c : WsRpcState) (e : WsEvent) :
    ∃ tail, (wsStep c e).pending = c.pending ++ tail := by
  cases e with
  | connect => exact ⟨[], by simp [wsStep]⟩
  | openEvent =>
    cases hws : c.ws with
    | null => exact ⟨[], by simp [wsStep, hws]⟩
    | conn r => cases r <;> exact ⟨[], by simp [wsStep, hws]⟩
  | closeEvent =>
    cases hws : c.ws with
    | null => exact ⟨[], by simp [wsStep, hws]⟩
    | conn r => exact ⟨[], by simp [wsStep, hws]⟩
  | callEvent m d cb =>
    cases hws : c.ws with
    | null => exact ⟨[⟨m, d, c.nonce⟩], by simp [wsStep, wsCall, hws]⟩
    | conn r =>
      cases r
      · exact ⟨[⟨m, d, c.nonce⟩], by simp [wsStep, wsCall, hws]⟩
      · exact ⟨[], by simp [wsStep, wsCall, hws]⟩
  | addHandler ev hd => exact ⟨[], by simp [wsStep]⟩
  | recv msg =>
    cases msg with
    | eventMsg ev d =>
      cases hf : c.evtHandlers.find? (fun h => h.1 == ev) with
      | some hd => exact ⟨[], by simp [wsStep, onmessage, hf]⟩
      | none => exact ⟨[], by simp [wsStep, onmessage, hf]⟩
    | respData meth n d =>
      cases hga : getAssoc c.callbacks n with
      | none => exact ⟨[], by simp [wsStep, onmessage, hga]⟩
      | some cb0 => exact ⟨[], by simp [wsStep, onmessage, hga]⟩
    | respError meth n er => exact ⟨[], by simp [wsStep, onmessage]⟩

lemma pending_persists (c : WsRpcState) (evs : List WsEvent) (f : Frame)
    (h : f ∈ c.pending) : f ∈ (runWsFrom c evs).pending := by
  induction evs generalizing c with
  | nil => exact h
  | cons e evs ih =>
    apply ih
    obtain ⟨tail, htail⟩ := wsStep_pending_extend c e
    rw [htail]
    exact List.mem_append.mpr (Or.inl h)

lemma roomIds_pairwise (ops : List ChatOp) (room : Nat) :
    (roomIds (runOps ops) room).Pairwise (· < ·) := by
  obtain ⟨-, -, h3, -⟩ := runOps_WF ops
  refine h3.sublist ?_
  unfold roomIds roomMessages
  exact (List.filter_sublist _).map _

/-! ## The claims -/

/-- C1 counterexample: the claim says a first `AcceptedByCreator` (or
`WithdrawnByCompany`) is accepted; in fact the trigger execution errors —
the body's bare SELECT has no INTO destination (and reads the unassigned
`OLD`) — so the INSERT of a first `AcceptedByCreator` aborts with the
runtime error and persists nothing: it is not accepted. -/
theorem C1_firstTransition_counterexample :
    check_contract_offer_update none ContractOfferStatus.AcceptedByCreator =
      Except.error PgError.QueryHasNoDestination ∧
    check_contract_offer_update none ContractOfferStatus.WithdrawnByCompany =
      Except.error PgError.QueryHasNoDestination ∧
    insertContractUpdate [] ContractOfferStatus.AcceptedByCreator =
      ([], some PgError.QueryHasNoDestination) :=
  ⟨rfl, rfl, rfl⟩

/-- C1 (amended): for an offer with no prior recorded transition, the
contract-negotiation check accepts no proposed first transition at all —
`AcceptedByCreator` and `WithdrawnByCompany` included: every execution of
the trigger errors before its IF (bare SELECT without INTO, `OLD`
unassigned in a BEFORE INSERT trigger; even discarding those,
`correct_transition` stays NULL and the IF raises), so every attempted
first transition aborts its INSERT and nothing is persisted.  The second
schema's `check_contract_update` behaves identically. -/
theorem C1_firstTransition_spec (k : ContractOfferStatus) :
    check_contract_offer_update none k =
      Except.error PgError.QueryHasNoDestination ∧
    check_contract_update none k =
      Except.error PgError.QueryHasNoDestination ∧
    insertContractUpdate [] k = ([], some PgError.QueryHasNoDestination) := by
  cases k <;> exact ⟨rfl, rfl, rfl⟩

/-- C2: the persisted sequence of accepted transitions of every offer is
a valid walk of the §4.3 table, and an out-of-order attempt never appears
in the persisted history — degenerately so: the trigger errors on every
INSERT, so after any attempt sequence the persisted history is empty, its
(zero) adjacent pairs all satisfy the successor constraints, and no
attempted insert of any kind ever changes the history. -/
theorem C2_history_validWalk (attempts : List ContractOfferStatus)
    (h : List ContractOfferStatus) (k : ContractOfferStatus) :
    replayUpdates attempts = [] ∧
    (replayUpdates attempts).Chain' specSuccessor ∧
    (insertContractUpdate h k).1 = h := by
  refine ⟨replayUpdates_nil attempts, ?_, rfl⟩
  rw [replayUpdates_nil attempts]
  exact List.chain'_nil

/-- C3 counterexample: interleaving two rooms at the global BIGSERIAL
sequence gives room 0 the ids 1 and 3 — the second id is not the
successor of the room's previous highest id, so per-room id assignment
has gaps. -/
theorem C3_messageIds_counterexample :
    roomIds (runOps gapTrace) 0 = [1, 3] ∧
    ¬ GapFree (roomIds (runOps gapTrace) 0) := by
  have h : roomIds (runOps gapTrace) 0 = [1, 3] := by decide
  refine ⟨h, ?_⟩
  unfold GapFree
  rw [h]
  intro hc
  obtain ⟨h1, -⟩ := List.chain'_cons.mp hc
  omega

/-- C3 (amended): within a room, message ids are unique and strictly
increasing in send order, but they are allocated from the `ChatMessage`
table's single global sequence shared by all rooms, so a room's ids can
have gaps; and whenever the send timestamps of the trace are
non-decreasing, ordering a room's messages by id agrees with ordering
them by creation time. -/
theorem C3_messageIds_spec (ops : List ChatOp) (room : Nat) :
    (roomIds (runOps ops) room).Pairwise (· < ·) ∧
    (roomIds (runOps ops) room).Nodup ∧
    ((sendTimes ops).Pairwise (· ≤ ·) →
      ((roomMessages (runOps ops) room).map
        (fun m => m.created_at)).Pairwise (· ≤ ·)) := by
  have hlt := roomIds_pairwise ops room
  refine ⟨hlt, hlt.imp (fun h => Nat.ne_of_lt h), ?_⟩
  intro hclock
  have htimes : ((runOps ops).messages.map
      (fun m => m.created_at)).Pairwise (· ≤ ·) := by
    rw [messages_times]
    exact hclock
  refine htimes.sublist ?_
  unfold roomMessages
  exact (List.filter_sublist _).map _

/-- C3 witness: the interleaved trace has non-decreasing send times, so
room 0's messages are creation-time ordered when ordered by id. -/
theorem C3_messageIds_spec_witness :
    ((roomMessages (runOps gapTrace) 0).map
      (fun m => m.created_at)).Pairwise (· ≤ ·) :=
  (C3_messageIds_spec gapTrace 0).2.2 (by decide)

/-- C4: the claim is the evident intent — the trigger's own
`RAISE EXCEPTION 'Cannot do this state transition'` is the failure the
design surfaces as `IllegalContractTransition`, and the BEFORE INSERT
trigger does make validation and insertion one atomic operation — but as
executed the body errors at its bare SELECT before ever reaching the
RAISE, so a rejected attempt (which is every attempt, here at the failing
input `AcceptedByCreator` after `WithdrawnByCompany`) fails with
`query has no destination for result data`, not with the
`IllegalContractTransition` failure the claim names; the non-persistence
half does hold: the aborted INSERT leaves the history exactly unchanged. -/
theorem C4_rejected_error_kind :
    insertContractUpdate [ContractOfferStatus.WithdrawnByCompany]
      ContractOfferStatus.AcceptedByCreator =
      ([ContractOfferStatus.WithdrawnByCompany],
        some PgError.QueryHasNoDestination) ∧
    (insertContractUpdate [ContractOfferStatus.WithdrawnByCompany]
      ContractOfferStatus.AcceptedByCreator).2 ≠
      some PgError.CannotDoThisStateTransition := by
  refine ⟨rfl, ?_⟩
  decide

/-- C5: `createRoom` is idempotent per participant pair — after any call
history, calling it twice more for the same (user, company) returns the
same room id and the same store (the second call persists nothing), and
at most one room row for the pair is ever persisted. -/
theorem C5_createRoom_idempotent (calls : List (Nat × Nat)) (user company : Nat) :
    createRoom ((createRoom (runCreates calls) user company).1) user company =
      createRoom (runCreates calls) user company ∧
    (roomsForPair ((createRoom (runCreates calls) user company).1)
      user company).length ≤ 1 := by
  refine ⟨createRoom_idem _ user company, ?_⟩
  exact createRoom_pair_inv (runCreates calls) user company
    (runCreates_pair calls) user company

/-- C6: `updateLastSeen` fails with `InvalidSeenId` exactly when
`seen_till` exceeds the room's highest message id or is below the user's
stored watermark; consequently the stored watermark never exceeds the
room's highest message id and never decreases under any further
operation. -/
theorem C6_updateLastSeen_spec (ops : List ChatOp) (room user seen : Nat) :
    (updateLastSeen (runOps ops) room user seen =
        Except.error ChatError.InvalidSeenId ↔
      (maxMsgId (runOps ops) room < seen ∨
        ∃ cur, getLastSeen (runOps ops) room user = some cur ∧ seen < cur)) ∧
    (∀ v, getLastSeen (runOps ops) room user = some v →
      v ≤ maxMsgId (runOps ops) room) ∧
    (∀ op v w, getLastSeen (runOps ops) room user = some v →
      getLastSeen (applyOp (runOps ops) op) room user = some w → v ≤ w) := by
  refine ⟨?_, ?_, ?_⟩
  · unfold updateLastSeen
    by_cases h1 : maxMsgId (runOps ops) room < seen
    · simp [h1]
    · rw [if_neg h1]
      cases hg : getLastSeen (runOps ops) room user with
      | none => simp [h1]
      | some cur =>
        by_cases h2 : seen < cur
        · simp [h1, h2]
        · simp [h1, h2]
  · intro v hv
    obtain ⟨-, -, -, h4⟩ := runOps_WF ops
    obtain ⟨r, hrmem, hroom, huser, hval⟩ := getLastSeen_mem _ room user v hv
    have hb := h4 r hrmem
    rw [hroom, hval] at hb
    exact hb
  · intro op v w hv hw
    cases op with
    | send r u content now =>
      have hsame : getLastSeen
          (applyOp (runOps ops) (ChatOp.send r u content now)) room user =
          getLastSeen (runOps ops) room user := rfl
      rw [hsame, hv] at hw
      cases hw
      exact le_refl v
    | seen r u sv =>
      cases hupd : updateLastSeen (runOps ops) r u sv with
      | error e =>
        have happ : applyOp (runOps ops) (ChatOp.seen r u sv) = runOps ops := by
          simp [applyOp, hupd]
        rw [happ, hv] at hw
        cases hw
        exact le_refl v
      | ok s2 =>
        obtain ⟨hle, hcur, hm, hn, hl⟩ := updateLastSeen_ok _ r u sv s2 hupd
        have happ : applyOp (runOps ops) (ChatOp.seen r u sv) = s2 := by
          simp [applyOp, hupd]
        rw [happ] at hw
        have hw2 : lookupSeen s2.lastSeen room user = some w := hw
        rw [hl] at hw2
        by_cases hpair : room = r ∧ user = u
        · obtain ⟨rfl, rfl⟩ := hpair
          rw [lookupSeen_set_eq] at hw2
          cases hw2
          exact hcur v hv
        · rw [lookupSeen_set_ne _ _ _ _ _ _ hpair] at hw2
          have hsame : getLastSeen (runOps ops) room user = some w := hw2
          rw [hv] at hsame
          cases hsame
          exact le_refl v

/-- C6 witness: after one message and an acknowledgement of id 1 in room
0, acknowledging 9 fails with `InvalidSeenId`, the stored watermark 1 is
bounded by the room's highest id, and it does not decrease under a
further send. -/
theorem C6_updateLastSeen_spec_witness :
    updateLastSeen (runOps seenTrace) 0 10 9 =
      Except.error ChatError.InvalidSeenId ∧
    1 ≤ maxMsgId (runOps seenTrace) 0 ∧ (1 : Nat) ≤ 1 :=
  ⟨(C6_updateLastSeen_spec seenTrace 0 10 9).1.mpr (Or.inl (by decide)),
   (C6_updateLastSeen_spec seenTrace 0 10 9).2.1 1 (by decide),
   (C6_updateLastSeen_spec seenTrace 0 10 9).2.2 (ChatOp.send 1 11 bodyA 2) 1 1
     (by decide) (by decide)⟩

/-- C7 counterexample: in the interleaved trace, room 0 holds 2 messages
(ids 1 and 3) and user 10 never acknowledged anything, yet the reported
unread count — highest id minus watermark, floored at 0 — is 3, not the
room's total message count 2. -/
theorem C7_unread_counterexample :
    getLastSeen (runOps gapTrace) 0 10 = none ∧
    unreadCount (runOps gapTrace) 0 10 = 3 ∧
    (roomMessages (runOps gapTrace) 0).length = 2 ∧
    unreadCount (runOps gapTrace) 0 10 ≠ (roomMessages (runOps gapTrace) 0).length := by
  refine ⟨by decide, by decide, by decide, by decide⟩

/-- C7 (amended): the unread count equals the room's maximum message id
minus the user's stored watermark (0 when the user never acknowledged
anything), floored at 0; the number of messages with id above the
watermark is bounded by (but, because the global id sequence leaves gaps
inside a room, not always equal to) that count. -/
theorem C7_unread_spec (ops : List ChatOp) (room user : Nat) :
    (getLastSeen (runOps ops) room user = none →
      unreadCount (runOps ops) room user = maxMsgId (runOps ops) room) ∧
    (∀ N, getLastSeen (runOps ops) room user = some N →
      unreadCount (runOps ops) room user = maxMsgId (runOps ops) room - N) ∧
    messagesAfter (runOps ops) room ((getLastSeen (runOps ops) room user).getD 0)
      ≤ unreadCount (runOps ops) room user := by
  refine ⟨?_, ?_, ?_⟩
  · intro h
    unfold unreadCount
    rw [h]
    simp
  · intro N h
    unfold unreadCount
    rw [h]
    rfl
  · have hnd : (roomIds (runOps ops) room).Nodup :=
      (roomIds_pairwise ops room).imp (fun h => Nat.ne_of_lt h)
    have hb : ∀ i ∈ roomIds (runOps ops) room, i ≤ maxMsgId (runOps ops) room :=
      fun i hi => le_foldr_max _ i hi
    exact filter_lt_length_le (roomIds (runOps ops) room) hnd
      (maxMsgId (runOps ops) room)
      ((getLastSeen (runOps ops) room user).getD 0) hb

/-- C7 witness: in the interleaved trace the never-acknowledged unread
count for room 0 equals the room's highest message id. -/
theorem C7_unread_spec_witness :
    unreadCount (runOps gapTrace) 0 10 = maxMsgId (runOps gapTrace) 0 :=
  (C7_unread_spec gapTrace 0 10).1 (by decide)

/-- C8: a given nonce's callback is invoked at most once over any event
history of the client — and processing a response message for a nonce
removes that nonce from the callback map, so a later message with the
same nonce finds no callback. -/
theorem C8_nonce_single_response (evs : List WsEvent) (n : Nat) (meth d : String) :
    ((runWs evs).invoked.filter (fun q => q.1 == n)).length ≤ 1 ∧
    getAssoc ((runWs (evs ++
      [WsEvent.recv (InboundMsg.respData meth n d)])).callbacks) n = none := by
  refine ⟨?_, ?_⟩
  · obtain ⟨-, -, h3, -⟩ := WsInv_runWs evs
    exact h3 n
  · have hrun : runWs (evs ++ [WsEvent.recv (InboundMsg.respData meth n d)]) =
        wsStep (runWs evs) (WsEvent.recv (InboundMsg.respData meth n d)) := by
      unfold runWs runWsFrom
      rw [List.foldl_append]
      rfl
    rw [hrun]
    cases hga : getAssoc (runWs evs).callbacks n with
    | none =>
      have heq : wsStep (runWs evs) (WsEvent.recv (InboundMsg.respData meth n d)) =
          { runWs evs with
            callbacks := (runWs evs).callbacks.filter (fun p => !(p.1 == n)) } := by
        simp [wsStep, onmessage, hga]
      rw [heq]
      exact getAssoc_filter_self _ n
    | some cb0 =>
      have heq : wsStep (runWs evs) (WsEvent.recv (InboundMsg.respData meth n d)) =
          { runWs evs with
            invoked := (runWs evs).invoked ++ [(n, cb0)],
            callbacks := (runWs evs).callbacks.filter (fun p => !(p.1 == n)) } := by
        simp [wsStep, onmessage, hga]
      rw [heq]
      exact getAssoc_filter_self _ n

/-- C9: processing a response — success or error — whose nonce has no
registered callback leaves the client exactly unchanged: no callback is
invoked, the other nonces' callbacks stay registered, nothing fails and
the connection stays as it was. -/
theorem C9_unknown_nonce_noop (c : WsRpcState) (n : Nat) (meth d er : String)
    (h : getAssoc c.callbacks n = none) :
    onmessage c (InboundMsg.respData meth n d) = c ∧
    onmessage c (InboundMsg.respError meth n er) = c := by
  have hfix := filter_not_key_eq c.callbacks n h
  constructor
  · simp [onmessage, h, hfix]
  · simp [onmessage, hfix]

/-- C9 witness: the freshly constructed client ignores a response with
nonce 5. -/
theorem C9_unknown_nonce_noop_witness :
    onmessage WsRpcState.init (InboundMsg.respData methodA 5 payloadA) =
      WsRpcState.init :=
  (C9_unknown_nonce_noop WsRpcState.init 5 methodA payloadA payloadA (by rfl)).1

/-- C10 counterexample: a frame queued while disconnected is sent again
by the second `onopen` after a reconnect, because `pending` is never
cleared — it is sent twice, not exactly once, and remains queued. -/
theorem C10_pending_resend_counterexample :
    (runWs dupTrace).sent =
      [⟨methodA, payloadA, 0⟩, ⟨methodA, payloadA, 0⟩] ∧
    (runWs dupTrace).pending = [⟨methodA, payloadA, 0⟩] := by
  constructor
  · decide
  · decide

/-- C10 (amended): a call made while the socket is null or not OPEN
appends its encoded frame to the pending queue (sending nothing yet);
when `onopen` fires on a connecting socket the whole queue is written out
in order; and the queue is never shrunk by any event, so no disconnected
call is ever dropped — but since `onopen` does not clear the queue, a
queued frame is re-sent by every later `onopen` rather than sent exactly
once. -/
theorem C10_pending_flush_spec (c : WsRpcState) (m d : String) (cb : Nat)
    (evs : List WsEvent) (hno : c.ws ≠ WsHandle.conn WsReady.opened) :
    (wsCall c m d cb).pending = c.pending ++ [⟨m, d, c.nonce⟩] ∧
    (wsCall c m d cb).sent = c.sent ∧
    (c.ws = WsHandle.conn WsReady.connecting →
      (wsStep c WsEvent.openEvent).sent = c.sent ++ c.pending ∧
      (wsStep c WsEvent.openEvent).pending = c.pending) ∧
    (∀ f ∈ c.pending, f ∈ (runWsFrom c evs).pending) := by
  refine ⟨?_, ?_, ?_, ?_⟩
  · cases hws : c.ws with
    | null => simp [wsCall, hws]
    | conn r =>
      cases r with
      | connecting => simp [wsCall, hws]
      | opened => exact absurd hws hno
  · cases hws : c.ws with
    | null => simp [wsCall, hws]
    | conn r =>
      cases r with
      | connecting => simp [wsCall, hws]
      | opened => exact absurd hws hno
  · intro hconn
    constructor <;> simp [wsStep, hconn]
  · intro f hf
    exact pending_persists c evs f hf

/-- C10 witness: after one call made before any connection exists, the
frame sits at the end of the queue. -/
theorem C10_pending_flush_spec_witness :
    (wsCall (runWs [WsEvent.callEvent methodA payloadA 7]) methodA payloadA 8).pending =
      (runWs [WsEvent.callEvent methodA payloadA 7]).pending ++
        [⟨methodA, payloadA, (runWs [WsEvent.callEvent methodA payloadA 7]).nonce⟩] :=
  (C10_pending_flush_spec (runWs [WsEvent.callEvent methodA payloadA 7])
    methodA payloadA 8 [] (by decide)).1

end Halogin
